import Mathlib

/-!
Verification of the AMBER_AGENT repository: a shallow embedding of the
index-building, page-resolution, fuzzy-lookup, caching and truncation logic
of `build_index.py` and `amber_agent.py`, with theorems settling the claims
about them.  Python strings are embedded as `List Char`.
-/

namespace Amber

/-- Python strings are modelled as lists of characters. -/
abbrev Str := List Char

/-- ASCII whitespace as recognized by Python `str.strip` and the regex
class backslash-s (space, tab, newline, carriage return, vertical tab,
form feed); the source data is ASCII. -/
def pyIsSpace (c : Char) : Bool :=
  c = ' ' || c = '\t' || c = '\n' || c = '\r' || c = '\x0b' || c = '\x0c'

/-- Python `str.strip()`: drop whitespace from both ends. -/
def pyStrip (l : Str) : Str :=
  ((l.dropWhile pyIsSpace).reverse.dropWhile pyIsSpace).reverse

/-- Python `str.lower()` (ASCII scope). -/
def lowerL (l : Str) : Str := l.map Char.toLower

/-- Python `int(s)` on a string of decimal digits. -/
def natOfDigits (ds : Str) : Nat :=
  ds.foldl (fun a c => 10 * a + (c.toNat - 48)) 0

/-- Python `str.split(',')`. -/
def splitComma : Str → List Str
  | [] => [[]]
  | c :: rest =>
    let r := splitComma rest
    if c = ',' then [] :: r
    else
      match r with
      | [] => [[c]]
      | h :: t => (c :: h) :: t

/-- The command character class of the dot-leader and "p." patterns in
`build_index.py`: ASCII letters, digits, underscore, colon, plus, hyphen,
slash and dot. -/
def isCmdChar (c : Char) : Bool :=
  c.isAlphanum || c = '_' || c = ':' || c = '+' || c = '-' || c = '/' || c = '.'

/-- Python `list(range(s, e + 1))`. -/
def rangeIncl (s e : Nat) : List Nat :=
  (List.range (e + 1 - s)).map (s + ·)

/-- The optional range suffix `(?:\s*[-–]\s*(\d+))?` of the dot-leader and
"p." patterns: after the first page number, optional whitespace, a hyphen or
en dash, optional whitespace and a second number. -/
def rangeSuffix (r : Str) : Option Nat :=
  match r.dropWhile pyIsSpace with
  | d :: r2 =>
    if d = '-' || d = '–' then
      let ds := (r2.dropWhile pyIsSpace).takeWhile Char.isDigit
      if ds = [] then none else some (natOfDigits ds)
    else none
  | [] => none

/-- The dot-leader pattern of `build_index.py` (PATTERNS entry 2),
applied with `re.match`: optional leading whitespace, a maximal nonempty run
of command characters, required whitespace, at least three dots, required
whitespace, a page number and an optional range suffix.  Because none of the
character classes overlap except on whitespace handled in sequence, the
backtracking regex accepts exactly the maximal-munch decomposition coded
here. -/
def matchDots (line : Str) : Option (Str × Nat × Option Nat) :=
  let l1 := line.dropWhile pyIsSpace
  let c := l1.takeWhile isCmdChar
  let r1 := l1.dropWhile isCmdChar
  if c = [] then none
  else if r1.takeWhile pyIsSpace = [] then none
  else
    let r2 := r1.dropWhile pyIsSpace
    let dots := r2.takeWhile (fun ch => ch = '.')
    let r3 := r2.dropWhile (fun ch => ch = '.')
    if dots.length < 3 then none
    else if r3.takeWhile pyIsSpace = [] then none
    else
      let r4 := r3.dropWhile pyIsSpace
      let ds := r4.takeWhile Char.isDigit
      let r5 := r4.dropWhile Char.isDigit
      if ds = [] then none
      else some (c, natOfDigits ds, rangeSuffix r5)

/-- The "p." pattern of `build_index.py` (PATTERNS entry 3,
case-insensitive), applied with `re.match`, by the same maximal-munch
reading: command run, required whitespace, a possibly empty run of commas
and spaces, optional whitespace, the letter p with an optional literal dot,
optional whitespace, a page number and an optional range suffix. -/
def matchPDot (line : Str) : Option (Str × Nat × Option Nat) :=
  let l1 := line.dropWhile pyIsSpace
  let c := l1.takeWhile isCmdChar
  let r1 := l1.dropWhile isCmdChar
  if c = [] then none
  else if r1.takeWhile pyIsSpace = [] then none
  else
    let r2 := r1.dropWhile pyIsSpace
    let r3 := r2.dropWhile (fun ch => ch = ',' || ch = ' ')
    let r4 := r3.dropWhile pyIsSpace
    match r4 with
    | p :: r5 =>
      if p = 'p' || p = 'P' then
        let r6 := match r5 with
          | '.' :: t => t
          | _ => r5
        let r7 := r6.dropWhile pyIsSpace
        let ds := r7.takeWhile Char.isDigit
        let r8 := r7.dropWhile Char.isDigit
        if ds = [] then none
        else some (c, natOfDigits ds, rangeSuffix r8)
      else none
    | [] => none

/-- The digit-token pages of the comma branch: every all-digit part after
the first, converted with `int`. -/
def commaPages (rest : List Str) : List Nat :=
  (rest.filter (fun p => p ≠ [] && p.all Char.isDigit)).map natOfDigits

/-- The comma-separated branch of `parse_index_text`: if the line contains a
comma, split on commas, strip each part; with at least two parts, the first
is the command and every all-digit later part a page; a record is produced
only when at least one page and a nonempty command were found (otherwise the
code falls through to the regex patterns). -/
def commaRecord (line : Str) : Option (Str × List Nat) :=
  if ',' ∈ line then
    if 2 ≤ ((splitComma line).map pyStrip).length then
      match (splitComma line).map pyStrip with
      | cmd :: rest =>
        if commaPages rest ≠ [] ∧ cmd ≠ [] then
          some (lowerL cmd, commaPages rest)
        else none
      | [] => none
    else none
  else none

/-- The noise filter of `parse_index_text`:
`line.lower().startswith(("see ", "seealso", "…", "index"))`. -/
def skipLine (line : Str) : Bool :=
  let low := lowerL line
  "see ".data.isPrefixOf low || "seealso".data.isPrefixOf low ||
  "…".data.isPrefixOf low || "index".data.isPrefixOf low

/-- One iteration of the line loop of `parse_index_text` in
`build_index.py`: strip, drop blank and noise lines, try the comma branch,
then the dot-leader pattern, then the "p." pattern; a matched range `N-M`
expands to `list(range(N, M + 1))` and the command key is lowercased. -/
def parseLineRecord (raw : Str) : Option (Str × List Nat) :=
  if pyStrip raw = [] then none
  else if skipLine (pyStrip raw) then none
  else
    match commaRecord (pyStrip raw) with
    | some r => some r
    | none =>
      match matchDots (pyStrip raw) with
      | some (c, s, e) => some (lowerL c, rangeIncl s (e.getD s))
      | none =>
        match matchPDot (pyStrip raw) with
        | some (c, s, e) => some (lowerL c, rangeIncl s (e.getD s))
        | none => none

/-- Lookup in an association list keyed by strings (the Python dict
`mapping`). -/
def findVal {α : Type} : List (Str × α) → Str → Option α
  | [], _ => none
  | (k', v) :: rest, k => if k' = k then some v else findVal rest k

/-- Replace the value stored at a present key (Python dict assignment on an
existing key). -/
def updateVal {α : Type} : List (Str × α) → Str → α → List (Str × α)
  | [], _, _ => []
  | (k', v') :: rest, k, v =>
    if k' = k then (k', v) :: rest else (k', v') :: updateVal rest k v

/-- The duplicate-key merge of `parse_index_text`: an absent key is inserted;
a present key gets `list(set(existing_pages + pages))`, modelled as
deduplicated concatenation (Python's set order is arbitrary, so the page
collection is meaningful as a set). -/
def mergeRecord (m : List (Str × List Nat)) (k : Str) (ps : List Nat) :
    List (Str × List Nat) :=
  match findVal m k with
  | some existing => updateVal m k ((existing ++ ps).dedup)
  | none => m ++ [(k, ps)]

/-- `parse_index_text` of `build_index.py`, applied to a text whose
`splitlines()` yields the given list of lines: fold the per-line record over
the mapping with the duplicate merge. -/
def parse_index_text (lines : List Str) : List (Str × List Nat) :=
  lines.foldl
    (fun m raw =>
      match parseLineRecord raw with
      | none => m
      | some (k, ps) => mergeRecord m k ps)
    []

/-- The page set of a command in a parsed mapping, as a finite set. -/
def pagesFinset (m : List (Str × List Nat)) (k : Str) : Finset Nat :=
  ((findVal m k).getD []).toFinset

/-- Insert into a sorted duplicate-free list of naturals. -/
def insertAsc (x : Nat) : List Nat → List Nat
  | [] => [x]
  | y :: ys =>
    if x < y then x :: y :: ys
    else if x = y then y :: ys
    else y :: insertAsc x ys

/-- Python `sorted(set(l))`. -/
def sortedDedup (l : List Nat) : List Nat := l.foldr insertAsc []

/-- Insert into a sorted list of naturals, keeping duplicates. -/
def insertDup (x : Nat) : List Nat → List Nat
  | [] => [x]
  | y :: ys => if x ≤ y then x :: y :: ys else y :: insertDup x ys

/-- Python `sorted(l)`. -/
def sortAsc (l : List Nat) : List Nat := l.foldr insertDup []

/-- The page-offset expansion shared by `read_pages_text_from_manual`
(amber_agent.py) and `slice_command_pdfs` (build_index.py): for every
indexed page `p`, extend with `p + 1` and `p + 2`. -/
def expandPages : List Nat → List Nat
  | [] => []
  | p :: rest => (p + 1) :: (p + 2) :: expandPages rest

/-- The metadata stored for a command in `index.json`: the new `pages`
format produced by `parse_index_text`, or the legacy `start`/`end` format. -/
inductive PageMeta where
  | pages (l : List Nat)
  | span (s e : Nat)
deriving DecidableEq

/-- The `page_numbers` computed by `read_pages_text_from_manual`: in the
`pages` format, expand with the offset heuristic, apply
`sorted(set(...))` and subtract one from each page (every expanded page is
at least 1, so natural subtraction agrees with Python); in the legacy
format, `list(range(start - 1, end - 1 + 1))`. -/
def agentPageNumbers : PageMeta → List Nat
  | .pages l => (sortedDedup (expandPages l)).map (fun p => p - 1)
  | .span s e => rangeIncl (s - 1) (e - 1)

/-- The pages actually read from the opened manual by
`read_pages_text_from_manual`: the loop body guards each access with
`0 <= p < len(book)` (the lower bound is automatic for naturals). -/
def agentAccessed (meta : PageMeta) (docLen : Nat) : List Nat :=
  (agentPageNumbers meta).filter (fun p => decide (p < docLen))

/-- The `zero_based_pages` of `slice_command_pdfs`: expand the index pages
with the offset heuristic, `sorted(set(...))`, then keep `p - 1` for each
`p` with `0 <= p - 1 < len(book)` (every expanded page is at least 1, so
natural subtraction agrees with Python). -/
def buildZeroBased (meta : PageMeta) (docLen : Nat) : List Nat :=
  let indexPages :=
    match meta with
    | .pages l => l
    | .span s e => rangeIncl s e
  (sortedDedup (expandPages indexPages)).filterMap
    (fun p => if p - 1 < docLen then some (p - 1) else none)

/-- Python `str.replace(a, sub)` for a single-character needle. -/
def replaceAllChar (a : Char) (sub : Str) : Str → Str
  | [] => []
  | c :: rest => (if c = a then sub else [c]) ++ replaceAllChar a sub rest

/-- The character filter of the sanitization:
`c.isalnum() or c in "._-"` (ASCII scope). -/
def keepCh (c : Char) : Bool :=
  c.isAlphanum || c = '.' || c = '_' || c = '-'

/-- The sidecar-name sanitization in `read_pages_text_from_manual`
(amber_agent.py, lines 47-48): map slash, backslash and colon to
underscore, `+` to the word `plus`, then keep only alphanumerics, dot,
underscore and hyphen. -/
def sanitizeAgent (cmd : Str) : Str :=
  let s1 := replaceAllChar '/' "_".data cmd
  let s2 := replaceAllChar '\\' "_".data s1
  let s3 := replaceAllChar ':' "_".data s2
  let s4 := replaceAllChar '+' "plus".data s3
  s4.filter keepCh

/-- The filename sanitization in `slice_command_pdfs` (build_index.py,
lines 279-280): map slash, backslash and colon to underscore, `+` to the
word `plus`, then keep only alphanumerics, dot, underscore and hyphen. -/
def sanitizeBuild (cmd : Str) : Str :=
  let s1 := replaceAllChar '/' "_".data cmd
  let s2 := replaceAllChar '\\' "_".data s1
  let s3 := replaceAllChar ':' "_".data s2
  let s4 := replaceAllChar '+' "plus".data s3
  s4.filter keepCh

/-- `cache_key` of amber_agent.py builds the fingerprint as the SHA-1 of
the string `f"{cmd}|{query}|{model}"`; the hash of that string is modelled
by its preimage, the delimited concatenation itself. -/
def cache_key (cmd query model : Str) : Str :=
  cmd ++ '|' :: (query ++ '|' :: model)

/-- Writing a cache entry: the file at the fingerprint now holds `v`
(a later write to the same key shadows an earlier one). -/
def cachePut (store : List (Str × Str)) (cmd query model v : Str) :
    List (Str × Str) :=
  (cache_key cmd query model, v) :: store

/-- Reading a cache entry at the fingerprint of the given triple. -/
def cacheGet (store : List (Str × Str)) (cmd query model : Str) :
    Option Str :=
  findVal store (cache_key cmd query model)

/-- `rapidfuzz.process.extractOne(q, choices, scorer)` with no score
cutoff: the highest-scoring choice, the first one on ties, `none` when
`choices` is empty.  The external WRatio scorer is an opaque parameter. -/
def extractOne (scorer : Str → Str → Nat) (q : Str) (choices : List Str) :
    Option (Str × Nat) :=
  choices.foldl
    (fun acc c =>
      match acc with
      | none => some (c, scorer q c)
      | some (b, s) =>
        let s' := scorer q c
        if s < s' then some (c, s') else some (b, s))
    none

/-- `best_match` of amber_agent.py: lowercase the query, run `extractOne`,
and return `(m[0], m[1]) if m else (None, 0)`. -/
def best_match (scorer : Str → Str → Nat) (query : Str)
    (choices : List Str) : Option Str × Nat :=
  match extractOne scorer (lowerL query) choices with
  | some (c, s) => (some c, s)
  | none => (none, 0)

/-- Python truthiness of the matched command in
`if not cmd or score < min_score`: `None` and the empty string are
falsy. -/
def cmdFalsy : Option Str → Bool
  | none => true
  | some [] => true
  | some (_ :: _) => false

/-- The fixed truncation marker appended in `make`. -/
def truncMarker : Str := "\n[...truncated for token limits ...]".data

/-- The truncation step of `make` (amber_agent.py, lines 130-131):
`if len(text) > max_chars: text = text[:max_chars] + marker`. -/
def truncateText (t : Str) (maxChars : Nat) : Str :=
  if maxChars < t.length then t.take maxChars ++ truncMarker else t

/-- Decimal rendering of a page number (Python `str(n)`). -/
def natToChars (n : Nat) : Str := (Nat.repr n).data

/-- Python `sep.join(parts)`. -/
def joinSep (sep : Str) : List Str → Str
  | [] => []
  | [x] => x
  | x :: xs => x ++ sep ++ joinSep sep xs

/-- `_format_pages` of amber_agent.py: sort the pages; one page renders
alone, two consecutive pages render as a dash range, anything else as a
comma-separated list; the legacy format renders its endpoints. -/
def format_pages : PageMeta → Str
  | .pages l =>
    match sortAsc l with
    | [a] => natToChars a
    | [a, b] =>
      if b = a + 1 then natToChars a ++ '-' :: natToChars b
      else joinSep ", ".data [natToChars a, natToChars b]
    | ps => joinSep ", ".data (ps.map natToChars)
  | .span s e =>
    if s = e then natToChars s else natToChars s ++ '-' :: natToChars e

/-- The SYSTEM prompt string of amber_agent.py. -/
def systemPrompt : Str :=
  ("You are an AMBER/CPPTRAJ assistant.\nOnly use the provided manual excerpts to craft exact commands or minimal scripts.\nIf there are multiple valid approaches, show the *most canonical* one, then one alternative.\nReturn the final command(s) in fenced code blocks with no commentary inside the blocks.\nIf parameters are unspecified by the user, pick sane defaults and call them out.\n").data

/-- The external world of one `make` invocation: the opaque fuzzy scorer,
the sidecar files under docs, the manual document (existence flag and its
pages by zero-based index), the API-key presence, the opaque transformer,
and the cache directory contents. -/
structure Env where
  scorer : Str → Str → Nat
  sidecar : Str → Option Str
  manualExists : Bool
  manualPages : List Str
  hasApiKey : Bool
  llm : Str → Str → Str
  cache : List (Str × Str)

/-- The observable side effects a `make` run performs, in order. -/
inductive Action where
  | cacheRead (key : Str)
  | sidecarProbe (name : Str)
  | pageAccess (p : Nat)
  | llmCall
  | cacheWrite (key : Str)
deriving DecidableEq

/-- The failure exits of `make`: the no-confident-match exit (code 2) with
the reported best candidate and score, the missing-manual exit and the
missing-API-key exit (code 1). -/
inductive MakeErr where
  | noConfidentMatch (best : Option Str) (score : Nat)
  | manualMissing
  | apiKeyMissing
deriving DecidableEq

/-- `read_pages_text_from_manual` of amber_agent.py: probe the sidecar
under the literal command name, then under the sanitized name; on a hit
return the sidecar text; otherwise compute the page numbers, require the
manual to exist, and join the text of every in-bounds page with
newlines. -/
def read_pages_text_from_manual (env : Env) (cmd : Str) (meta : PageMeta) :
    List Action × Except MakeErr Str :=
  match env.sidecar cmd with
  | some t => ([.sidecarProbe cmd], .ok t)
  | none =>
    let safe := sanitizeAgent cmd
    match env.sidecar safe with
    | some t => ([.sidecarProbe cmd, .sidecarProbe safe], .ok t)
    | none =>
      if env.manualExists then
        let acc := agentAccessed meta env.manualPages.length
        ([.sidecarProbe cmd, .sidecarProbe safe] ++ acc.map .pageAccess,
         .ok (joinSep "\n".data (acc.map (fun p => (env.manualPages.get? p).getD []))))
      else ([.sidecarProbe cmd, .sidecarProbe safe], .error .manualMissing)

/-- The `make` command of amber_agent.py, after `load_index` succeeded:
fuzzy-resolve the query over the index keys, gate on falsy command or a
score below `min_score` (exit 2 reporting the best candidate and score),
else consult the cache when enabled, else read the manual pages, truncate,
build the user prompt, require the API key, call the transformer and store
the result in the cache when enabled.  The returned action list records
the side effects performed. -/
def make (env : Env) (index : List (Str × PageMeta))
    (query program model : Str) (minScore maxChars : Nat)
    (useCache : Bool) : List Action × Except MakeErr Str :=
  let choices := index.map Prod.fst
  let r := best_match env.scorer query choices
  if cmdFalsy r.1 || decide (r.2 < minScore) then
    ([], .error (.noConfidentMatch r.1 r.2))
  else
    let cmd := r.1.getD []
    let key := cache_key cmd query model
    let acts0 := if useCache then [Action.cacheRead key] else []
    let hit := if useCache then findVal env.cache key else none
    match hit with
    | some t => (acts0, .ok t)
    | none =>
      let meta := (findVal index cmd).getD (.pages [])
      let rp := read_pages_text_from_manual env cmd meta
      match rp.2 with
      | .error e => (acts0 ++ rp.1, .error e)
      | .ok text0 =>
        let text := truncateText text0 maxChars
        let userPrompt :=
          "Program: ".data ++ program ++
          "\nUser request: ".data ++ query ++
          "\nAMBER manual pages for '".data ++ cmd ++
          "' (pp. ".data ++ format_pages meta ++
          "):\n".data ++ text
        if env.hasApiKey then
          let result := env.llm systemPrompt userPrompt
          if useCache then
            (acts0 ++ rp.1 ++ [.llmCall, .cacheWrite key], .ok result)
          else (acts0 ++ rp.1 ++ [.llmCall], .ok result)
        else (acts0 ++ rp.1, .error .apiKeyMissing)

/-! Helper lemmas shared by the claim theorems. -/

lemma toFinset_dedup_eq (l : List Nat) : l.dedup.toFinset = l.toFinset := by
  ext x
  simp [List.mem_dedup]

lemma findVal_updateVal {α : Type} (m : List (Str × α)) (k : Str) (v : α)
    (h : (findVal m k).isSome) : findVal (updateVal m k v) k = some v := by
  induction m with
  | nil => simp [findVal] at h
  | cons hd tl ih =>
    obtain ⟨k', v'⟩ := hd
    by_cases hk : k' = k
    · simp [findVal, updateVal, hk]
    · simp only [findVal, updateVal, if_neg hk] at h ⊢
      exact ih h

lemma mem_agentAccessed_lt (meta : PageMeta) (docLen : Nat) :
    ∀ p ∈ agentAccessed meta docLen, p < docLen := by
  intro p hp
  simp only [agentAccessed, List.mem_filter, decide_eq_true_eq] at hp
  exact hp.2

lemma mem_buildZeroBased_lt (meta : PageMeta) (docLen : Nat) :
    ∀ p ∈ buildZeroBased meta docLen, p < docLen := by
  intro p hp
  simp only [buildZeroBased, List.mem_filterMap] at hp
  obtain ⟨q, _, hif⟩ := hp
  by_cases h : q - 1 < docLen
  · rw [if_pos h] at hif
    obtain rfl : q - 1 = p := Option.some.injEq _ _ ▸ hif
    exact h
  · rw [if_neg h] at hif
    exact absurd hif (by simp)

lemma rangeIncl_eq_nil_iff {s e : Nat} : rangeIncl s e = [] ↔ e + 1 - s = 0 := by
  constructor
  · intro h
    have := congrArg List.length h
    simpa [rangeIncl] using this
  · intro h
    simp [rangeIncl, h]

lemma commaRecord_pages_ne_nil {line k : Str} {ps : List Nat}
    (h : commaRecord line = some (k, ps)) : ps ≠ [] := by
  unfold commaRecord at h
  split at h
  · split at h
    · split at h
      · split at h
        · rename_i hguard
          injection h with h2
          cases h2
          exact hguard.1
        · exact absurd h (by simp)
      · exact absurd h (by simp)
    · exact absurd h (by simp)
  · exact absurd h (by simp)

lemma pipe_split :
    ∀ (a a' b b' : Str), '|' ∉ a → '|' ∉ a' →
      a ++ '|' :: b = a' ++ '|' :: b' → a = a' ∧ b = b' := by
  intro a
  induction a with
  | nil =>
    intro a' b b' _ ha' h
    cases a' with
    | nil => simpa using h
    | cons x xs =>
      simp only [List.nil_append, List.cons_append, List.cons.injEq] at h
      exact absurd (h.1 ▸ List.mem_cons_self x xs) ha'
  | cons x xs ih =>
    intro a' b b' ha ha' h
    cases a' with
    | nil =>
      simp only [List.cons_append, List.nil_append, List.cons.injEq] at h
      exact absurd (h.1 ▸ List.mem_cons_self x xs) ha
    | cons y ys =>
      simp only [List.cons_append, List.cons.injEq] at h
      obtain ⟨hxy, h2⟩ := h
      have ha2 : '|' ∉ xs := fun hm => ha (List.mem_cons_of_mem _ hm)
      have ha'2 : '|' ∉ ys := fun hm => ha' (List.mem_cons_of_mem _ hm)
      obtain ⟨e1, e2⟩ := ih ys b b' ha2 ha'2 h2
      exact ⟨by rw [hxy, e1], e2⟩

lemma cache_key_inj {c q m c' q' m' : Str} (hc : '|' ∉ c) (hq : '|' ∉ q)
    (hc' : '|' ∉ c') (hq' : '|' ∉ q')
    (h : cache_key c q m = cache_key c' q' m') :
    c = c' ∧ q = q' ∧ m = m' := by
  unfold cache_key at h
  obtain ⟨h1, h2⟩ := pipe_split c c' _ _ hc hc' h
  obtain ⟨h3, h4⟩ := pipe_split q q' _ _ hq hq' h2
  exact ⟨h1, h3, h4⟩

/-! The claim theorems. -/

/-- C8: the command resolver (`best_match`) applied to any query and an
empty key set returns the MatchResult `(none, 0)`, for every scorer. -/
theorem best_match_empty_keys (scorer : Str → Str → Nat) (query : Str) :
    best_match scorer query [] = (none, 0) := rfl

/-- C9: the filesystem-safe sanitization used by the content extractor when
it looks up a sidecar file (`read_pages_text_from_manual` in
amber_agent.py) is the same function as the sanitization the index builder
applies when writing per-command files (`slice_command_pdfs` in
build_index.py), so a file written under a sanitized name is found under
that same name. -/
theorem sanitize_functions_agree (cmd : Str) :
    sanitizeAgent cmd = sanitizeBuild cmd := rfl

/-- C5: index-building is idempotent over repeated lines — for any raw
index line, parsing a text containing that line twice (which merges the two
records) yields the same page set for every command as parsing a text
containing the line once. -/
theorem parse_twice_idempotent (l : Str) (k : Str) :
    pagesFinset (parse_index_text [l, l]) k
      = pagesFinset (parse_index_text [l]) k := by
  cases h : parseLineRecord l with
  | none => simp [parse_index_text, h]
  | some r =>
    obtain ⟨k0, ps⟩ := r
    have h1 : parse_index_text [l] = [(k0, ps)] := by
      simp [parse_index_text, h, mergeRecord, findVal]
    have h2 : parse_index_text [l, l] = [(k0, (ps ++ ps).dedup)] := by
      simp [parse_index_text, h, mergeRecord, findVal, updateVal]
    rw [h1, h2]
    by_cases hk : k0 = k
    · subst hk
      simp [pagesFinset, findVal, toFinset_dedup_eq, List.toFinset_append]
    · simp [pagesFinset, findVal, hk]

/-- C2: when the index builder parses two records for the same normalized
command key, the entry's page set becomes the deduplicated union of the two
page sets (`list(set(existing_pages + pages))`); in particular, merging
records with page sets `[5]` and `[5, 6]` yields exactly the set `5, 6`. -/
theorem merge_union_pages :
    (∀ (m : List (Str × List Nat)) (k : Str) (existing ps : List Nat),
        findVal m k = some existing →
        findVal (mergeRecord m k ps) k = some ((existing ++ ps).dedup) ∧
        ((existing ++ ps).dedup).toFinset
          = existing.toFinset ∪ ps.toFinset) ∧
    pagesFinset (parse_index_text ["cmd, 5".data, "cmd, 5, 6".data]) "cmd".data
      = ({5, 6} : Finset Nat) := by
  constructor
  · intro m k existing ps h
    refine ⟨?_, by rw [toFinset_dedup_eq, List.toFinset_append]⟩
    unfold mergeRecord
    rw [h]
    exact findVal_updateVal m k _ (by rw [h]; rfl)
  · decide

/-- Witness for C2: merging a stored page set `[5]` with a new record
`[5, 6]` under the same key. -/
theorem merge_union_pages_w :
    findVal [("a".data, [5])] "a".data = some [5] ∧
    findVal (mergeRecord [("a".data, [5])] "a".data [5, 6]) "a".data
      = some (([5] ++ [5, 6]).dedup) := by
  have h : findVal [("a".data, [5])] "a".data = some [5] := by decide
  exact ⟨h, (merge_union_pages.1 _ _ _ [5, 6] h).1⟩

/-- C6: whenever the extracted manual text is longer than the configured
character budget, the truncated text has length exactly `max_chars` plus
the length of the fixed truncation marker and ends with that marker; text
at or under the budget is passed through unchanged. -/
theorem truncation_exact :
    ∀ (t : Str) (maxChars : Nat),
      (maxChars < t.length →
        (truncateText t maxChars).length = maxChars + truncMarker.length ∧
        truncMarker.IsSuffix (truncateText t maxChars)) ∧
      (t.length ≤ maxChars → truncateText t maxChars = t) := by
  intro t maxChars
  constructor
  · intro h
    constructor
    · simp [truncateText, if_pos h, List.length_take,
        Nat.min_eq_left (Nat.le_of_lt h)]
    · exact ⟨t.take maxChars, by simp [truncateText, if_pos h]⟩
  · intro h
    simp [truncateText, Nat.not_lt.mpr h]

/-- Witness for C6: a six-character text against a budget of three. -/
theorem truncation_exact_w :
    3 < "abcdef".data.length ∧
    (truncateText "abcdef".data 3).length = 3 + truncMarker.length := by
  have h : 3 < "abcdef".data.length := by decide
  exact ⟨h, ((truncation_exact "abcdef".data 3).1 h).1⟩

/-- C10: every page index actually used to access the opened document is in
bounds — both the access loop of `read_pages_text_from_manual` and the
`zero_based_pages` of `slice_command_pdfs` filter out-of-bounds resolved
pages before any page access, for every index entry. -/
theorem page_access_in_bounds :
    ∀ (meta : PageMeta) (docLen : Nat),
      (∀ p ∈ agentAccessed meta docLen, p < docLen) ∧
      (∀ p ∈ buildZeroBased meta docLen, p < docLen) :=
  fun meta docLen =>
    ⟨mem_agentAccessed_lt meta docLen, mem_buildZeroBased_lt meta docLen⟩

/-- Witness for C10: page 10 survives the bounds filter for a 12-page
document and is indeed in bounds. -/
theorem page_access_in_bounds_w :
    10 ∈ agentAccessed (.pages [10]) 12 ∧ 10 < 12 :=
  ⟨by decide, (page_access_in_bounds (.pages [10]) 12).1 10 (by decide)⟩

/-- C1 counterexample: the page-resolution heuristic applied to an index
page set containing exactly 10 yields the zero-based content pages 10 and
11, not the pages 9 and 10 the claim states. -/
theorem resolve_pages_ten_cex :
    agentPageNumbers (.pages [10]) = [10, 11] ∧
    (agentPageNumbers (.pages [10])).toFinset ≠ ({9, 10} : Finset Nat) := by
  decide

/-- C1 (amended): the heuristic applied to index page set containing
exactly 10 yields resolved zero-based content pages 10 and 11 (indexed page
10 expands to offsets 11 and 12, zero-based 10 and 11), in both the reader
and the slicer; any resolved page outside the document bounds is dropped by
the bounds filter without an error. -/
theorem resolve_pages_ten_amended :
    agentPageNumbers (.pages [10]) = [10, 11] ∧
    buildZeroBased (.pages [10]) 12 = [10, 11] ∧
    buildZeroBased (.pages [10]) 11 = [10] ∧
    agentAccessed (.pages [10]) 11 = [10] ∧
    (∀ (meta : PageMeta) (docLen p : Nat),
      p ∈ agentAccessed meta docLen → p < docLen) ∧
    (∀ (meta : PageMeta) (docLen p : Nat),
      p ∈ buildZeroBased meta docLen → p < docLen) := by
  refine ⟨by decide, by decide, by decide, by decide, ?_, ?_⟩
  · exact fun meta docLen => mem_agentAccessed_lt meta docLen
  · exact fun meta docLen => mem_buildZeroBased_lt meta docLen

/-- Witness for C1 (amended): page 11 is kept for a 12-page document and is
in bounds. -/
theorem resolve_pages_ten_amended_w :
    11 ∈ buildZeroBased (.pages [10]) 12 ∧ 11 < 12 :=
  ⟨by decide,
    resolve_pages_ten_amended.2.2.2.2.2 (.pages [10]) 12 11 (by decide)⟩

/-- C3 counterexample: parsing the dot-leader line `cmd ... 7-3`, whose
numeric range has M smaller than N, produces an Index entry for `cmd` — so
the line is not rejected — and that entry's page set is empty, violating
the non-emptiness invariant the claim states. -/
theorem inverted_range_entry_cex :
    findVal (parse_index_text ["cmd ... 7-3".data]) "cmd".data = some [] ∧
    parse_index_text ["cmd ... 7-3".data] ≠ [] := by
  decide

/-- C3 (amended): an Index entry with an empty page set can arise, but only
from a dot-leader or "p." line whose numeric range has M smaller than N;
such a line produces an entry with an empty page set — the range is never
silently inverted, since `range(N, M + 1)` is empty whenever M is below N —
rather than no entry.  Entries from all other line shapes have non-empty
page sets. -/
theorem empty_pages_only_from_inverted_range :
    (∀ (l k : Str) (ps : List Nat),
        parseLineRecord l = some (k, ps) → ps = [] →
        ∃ c s e, e < s ∧
          (matchDots (pyStrip l) = some (c, s, some e) ∨
           matchPDot (pyStrip l) = some (c, s, some e))) ∧
    (∀ s e : Nat, e < s → rangeIncl s e = []) ∧
    parseLineRecord "cmd p. 7-3".data = some ("cmd".data, []) := by
  refine ⟨?_, ?_, by decide⟩
  · intro l k ps h hps
    unfold parseLineRecord at h
    split at h
    · exact absurd h (by simp)
    · split at h
      · exact absurd h (by simp)
      · cases hc : commaRecord (pyStrip l) with
        | some r =>
          rw [hc] at h
          simp only [] at h
          injection h with h2
          subst h2
          exact absurd hps (commaRecord_pages_ne_nil hc)
        | none =>
          rw [hc] at h
          cases hd : matchDots (pyStrip l) with
          | some t =>
            obtain ⟨c, s, e⟩ := t
            rw [hd] at h
            simp only [] at h
            injection h with h2
            have hps2 : rangeIncl s (e.getD s) = [] := by
              have := congrArg Prod.snd h2
              simpa [hps] using this.symm
            rw [rangeIncl_eq_nil_iff] at hps2
            cases e with
            | none =>
              simp only [Option.getD_none] at hps2
              omega
            | some e0 =>
              simp only [Option.getD_some] at hps2
              exact ⟨c, s, e0, by omega, Or.inl rfl⟩
          | none =>
            rw [hd] at h
            cases hp : matchPDot (pyStrip l) with
            | some t =>
              obtain ⟨c, s, e⟩ := t
              rw [hp] at h
              simp only [] at h
              injection h with h2
              have hps2 : rangeIncl s (e.getD s) = [] := by
                have := congrArg Prod.snd h2
                simpa [hps] using this.symm
              rw [rangeIncl_eq_nil_iff] at hps2
              cases e with
              | none =>
                simp only [Option.getD_none] at hps2
                omega
              | some e0 =>
                simp only [Option.getD_some] at hps2
                exact ⟨c, s, e0, by omega, Or.inr rfl⟩
            | none =>
              rw [hp] at h
              exact absurd h (by simp)
  · intro s e he
    rw [rangeIncl_eq_nil_iff]
    omega

/-- Witness for C3 (amended): the dot-leader line `x ... 9-2` yields an
entry with an empty page set, and the characterization locates the inverted
range behind it. -/
theorem empty_pages_only_from_inverted_range_w :
    parseLineRecord "x ... 9-2".data = some ("x".data, []) ∧
    (∃ c s e, e < s ∧
      (matchDots (pyStrip "x ... 9-2".data) = some (c, s, some e) ∨
       matchPDot (pyStrip "x ... 9-2".data) = some (c, s, some e))) := by
  have h : parseLineRecord "x ... 9-2".data = some ("x".data, []) := by decide
  exact ⟨h, empty_pages_only_from_inverted_range.1 _ _ _ h rfl⟩

/-- C4 counterexample: the cache fingerprint concatenates the fields with a
`|` delimiter, so the distinct triples `("a|b", "c", "m")` and
`("a", "b|c", "m")` collide — after storing under the first triple, a get
with the second returns the stored text instead of absent. -/
theorem cache_key_collision_cex :
    cacheGet (cachePut [] "a|b".data "c".data "m".data "TEXT".data)
        "a".data "b|c".data "m".data = some "TEXT".data ∧
    ¬("a|b".data = "a".data ∧ "c".data = "b|c".data ∧
        "m".data = "m".data) := by
  decide

/-- C4 (amended): `put` followed by `get` with the identical
(command, query, model) triple returns the stored text, over any prior
store; and starting from an empty store, `get` with a triple differing in
at least one field returns absent provided the command and query fields of
both triples contain no `|` delimiter character (with a `|` inside a field,
distinct triples can collide, as the counterexample shows). -/
theorem cache_roundtrip_amended :
    ∀ (store : List (Str × Str)) (c q m v c' q' m' : Str),
      cacheGet (cachePut store c q m v) c q m = some v ∧
      ('|' ∉ c → '|' ∉ q → '|' ∉ c' → '|' ∉ q' →
        ¬(c = c' ∧ q = q' ∧ m = m') →
        cacheGet (cachePut [] c q m v) c' q' m' = none) := by
  intro store c q m v c' q' m'
  constructor
  · simp [cacheGet, cachePut, findVal]
  · intro hc hq hc' hq' hne
    have hkey : ¬(cache_key c q m = cache_key c' q' m') :=
      fun heq => hne (cache_key_inj hc hq hc' hq' heq)
    simp [cacheGet, cachePut, findVal, hkey]

/-- Witness for C4 (amended): a round trip under `("rmsf", "q", "m1")` and
an absent get under the model-differing triple `("rmsf", "q", "m2")`. -/
theorem cache_roundtrip_amended_w :
    ('|' ∉ "rmsf".data) ∧
    cacheGet (cachePut [] "rmsf".data "q".data "m1".data "TEXT".data)
        "rmsf".data "q".data "m2".data = none := by
  refine ⟨by decide, ?_⟩
  exact (cache_roundtrip_amended [] "rmsf".data "q".data "m1".data
      "TEXT".data "rmsf".data "q".data "m2".data).2
    (by decide) (by decide) (by decide) (by decide) (by decide)

/-- C7: whenever the best fuzzy match over the index keys is no key at all,
or its score is below `min_score`, `make` fails with the
no-confident-match error reporting the best candidate and its score, and
performs no side effect at all — in particular no cache lookup, no sidecar
probe or page access, and no transformer call. -/
theorem make_gate_no_side_effects
    (env : Env) (index : List (Str × PageMeta))
    (query program model : Str) (minScore maxChars : Nat)
    (useCache : Bool)
    (h : (best_match env.scorer query (index.map Prod.fst)).1 = none ∨
         (best_match env.scorer query (index.map Prod.fst)).2 < minScore) :
    make env index query program model minScore maxChars useCache =
      ([], .error (.noConfidentMatch
        (best_match env.scorer query (index.map Prod.fst)).1
        (best_match env.scorer query (index.map Prod.fst)).2)) := by
  have hcond : (cmdFalsy (best_match env.scorer query (index.map Prod.fst)).1
      || decide ((best_match env.scorer query (index.map Prod.fst)).2
          < minScore)) = true := by
    rcases h with h | h
    · simp [h, cmdFalsy]
    · simp [h]
  unfold make
  simp [hcond]

/-- A concrete environment for exercising the no-confident-match gate: a
scorer that scores everything zero, no sidecars, an empty manual and an
empty cache. -/
def env0 : Env :=
  { scorer := fun _ _ => 0
    sidecar := fun _ => none
    manualExists := true
    manualPages := []
    hasApiKey := true
    llm := fun _ _ => []
    cache := [] }

/-- A one-entry index for exercising the gate. -/
def index0 : List (Str × PageMeta) := [("rms".data, .pages [5])]

/-- Witness for C7: under the zero scorer the best candidate `rms` scores
0, below the default threshold 70, and `make` exits with the
no-confident-match error having performed no action. -/
theorem make_gate_no_side_effects_w :
    ((best_match env0.scorer "xyz".data (index0.map Prod.fst)).2 < 70) ∧
    make env0 index0 "xyz".data "cpptraj".data "m".data 70 12000 true =
      ([], .error (.noConfidentMatch
        (best_match env0.scorer "xyz".data (index0.map Prod.fst)).1
        (best_match env0.scorer "xyz".data (index0.map Prod.fst)).2)) := by
  have h : (best_match env0.scorer "xyz".data (index0.map Prod.fst)).2 < 70 := by
    decide
  exact ⟨h, make_gate_no_side_effects env0 index0 "xyz".data "cpptraj".data
    "m".data 70 12000 true (Or.inr h)⟩

end Amber
